import Mathlib

/-!
Shallow embedding of the embedding-and-retrieval pipeline of
`src/open-ai-embedding.py` (chunking, FAISS flat L2 index, artifact
persistence, similarity search, answer synthesis, interactive dispatch).

Python strings are modelled as `List Char`, float vectors as `List ℚ`
(exact arithmetic in place of float32), the external OpenAI services as
function parameters returning `Option` (`none` = the call raised), and
the on-disk artifact pair as a record of two `Option` fields (`none` =
file missing or unreadable).  A Python function whose body is wrapped in
`try/except` is modelled as a total function whose failure branch value
is the value the `except` handler returns.
-/

/-- An embedding vector (Python `list[float]` / numpy row). -/
abbrev Vec := List ℚ

/-- One entry of the `embedded_chunks` list built by
`process_content_file`: `{'chunk_id': ..., 'text': ..., 'embedding': ...}`. -/
structure Chunk where
  chunk_id : List Char
  text : List Char
  embedding : Vec
deriving DecidableEq, Repr

/-- `get_embedding` (line 18): collapses embedded newlines to spaces
(`text.replace("\n", " ")`) before calling the external embedding
service.  The service itself is the parameter `service`; `none` models a
raised provider error. -/
def collapseNewlines (text : List Char) : List Char :=
  text.map (fun c => if c = '\n' then ' ' else c)

/-- The embedding call as performed by the code: normalize, then call out. -/
def get_embedding (service : List Char → Option Vec) (text : List Char) : Option Vec :=
  service (collapseNewlines text)

/-- The chunk comprehension of `process_content_file` (line 40):
`[content[i:i+max_chunk_size] for i in range(0, len(content), max_chunk_size)]`,
i.e. the consecutive fixed-size windows of the text.  A zero window size
(where Python `range` would raise `ValueError`) yields no chunks. -/
def chunkWindows : Nat → List Char → List (List Char)
  | _, [] => []
  | 0, _ :: _ => []
  | m + 1, c :: cs =>
    List.take (m + 1) (c :: cs) :: chunkWindows (m + 1) (List.drop (m + 1) (c :: cs))
termination_by _ l => l.length
decreasing_by simp; omega

/-- The list of chunk texts an ingestion run embeds (lines 38-81): the
fixed-size windows when the content is longer than `max_chunk_size`,
otherwise the single whole-content chunk of the `else` branch. -/
def chunkContent (content : List Char) (max_chunk_size : Nat) : List (List Char) :=
  if content.length > max_chunk_size then chunkWindows max_chunk_size content else [content]

/-- The embedding loop of the multi-chunk branch (lines 44-52): embeds
each chunk in order, giving the chunk at 0-based enumeration position
`i` the id `str(i+1)`; the first raised embedding call aborts the whole
run (`none`).  `n` is the number of chunks already processed. -/
def embedChunksFrom (service : List Char → Option Vec) : Nat → List (List Char) → Option (List Chunk)
  | _, [] => some []
  | n, c :: cs =>
    match get_embedding service c with
    | none => none
    | some e =>
      match embedChunksFrom service (n + 1) cs with
      | none => none
      | some rest => some ({ chunk_id := (Nat.repr (n + 1)).data, text := c, embedding := e } :: rest)

/-- The FAISS `IndexFlatL2` as far as the program observes it: the fixed
dimension and the appended rows. -/
structure FaissIndex where
  d : Nat
  vectors : List Vec
deriving DecidableEq, Repr

/-- `index.ntotal`: number of stored vectors. -/
def FaissIndex.count (index : FaissIndex) : Nat := index.vectors.length

/-- `store_in_faiss` (lines 106-128): dimension from the first embedding,
then all embeddings appended in order. -/
def store_in_faiss (embedded_chunks : List Chunk) : FaissIndex :=
  { d := ((embedded_chunks.head?).map (fun c => c.embedding.length)).getD 0,
    vectors := embedded_chunks.map (fun c => c.embedding) }

/-- `process_content_file` (lines 22-104) after the file read: chunk if
needed, embed every chunk, build the index, and only then write the
artifact pair.  `some (index, chunks)` is a completed run that wrote
both artifacts; `none` is the `except` branch (run aborted, nothing
written). -/
def process_content_file (service : List Char → Option Vec) (content : List Char)
    (max_chunk_size : Nat) : Option (FaissIndex × List Chunk) :=
  if content.length > max_chunk_size then
    match embedChunksFrom service 0 (chunkWindows max_chunk_size content) with
    | none => none
    | some embedded_chunks => some (store_in_faiss embedded_chunks, embedded_chunks)
  else
    match get_embedding service content with
    | none => none
    | some e =>
      some (store_in_faiss [{ chunk_id := ['f', 'u', 'l', 'l'], text := content, embedding := e }],
        [{ chunk_id := ['f', 'u', 'l', 'l'], text := content, embedding := e }])

/-- Squared L2 distance, the metric `IndexFlatL2` computes and reports. -/
def l2sq (u v : Vec) : ℚ :=
  ((List.zipWith (fun a b => a - b) u v).map (fun x => x * x)).sum

/-- Comparison used to order FAISS search hits: ascending distance, ties
by lower insertion position. -/
def hitLe (a b : Int × ℚ) : Bool :=
  decide (a.2 < b.2 ∨ (a.2 = b.2 ∧ a.1 ≤ b.1))

/-- Distance FAISS reports for the padding entries it emits when fewer
than `k` vectors are stored (stands in for the float infinity). -/
def faissPadDistance : ℚ := 2 ^ 128

/-- The (position, distance) table the flat index scans: one entry per
stored row, in insertion order. -/
def faissPairs (index : FaissIndex) (q : Vec) : List (Int × ℚ) :=
  (List.range index.count).map (fun i => (((i : Nat) : Int), l2sq q (index.vectors.getD i [])))

/-- `index.search(query, k)` of the flat L2 index: the `k` nearest stored
rows by ascending distance; when fewer than `k` rows exist the output is
padded with position `-1`.  A dimension mismatch raises in FAISS, which
the caller's `except` turns into an empty result, modelled here as no
hits. -/
def FaissIndex.search (index : FaissIndex) (q : Vec) (k : Nat) : List (Int × ℚ) :=
  if q.length = index.d then
    ((faissPairs index q).mergeSort hitLe).take k ++
      List.replicate (k - min k index.count) ((-1 : Int), faissPadDistance)
  else []

/-- The persisted artifact directory `src/code_folder/embedding`: the
serialized index file and the pickled chunk list.  `none` models a file
that is missing or fails to deserialize. -/
structure Disk where
  indexFile : Option FaissIndex
  chunksFile : Option (List Chunk)
deriving DecidableEq, Repr

/-- `load_faiss_index` (lines 130-151): reads both files inside one
`try`; any failure is caught and surfaced as the `(None, None)` sentinel
(here `none`).  No validation relates the two loaded values. -/
def load_faiss_index (disk : Disk) : Option (FaissIndex × List Chunk) :=
  match disk.indexFile, disk.chunksFile with
  | some index, some embedded_chunks => some (index, embedded_chunks)
  | _, _ => none

/-- The distance-to-similarity mapping of line 190:
`similarity = 1.0 / (1.0 + distances[0][i])`. -/
def similarity (dist : ℚ) : ℚ := 1 / (1 + dist)

/-- One entry of the list `search_similar_chunks` returns. -/
structure SearchResult where
  chunk_id : List Char
  text : List Char
  similarity : ℚ
deriving DecidableEq, Repr

/-- Placeholder chunk for the (guarded, hence never reached) out-of-range
lookup in `buildResults`. -/
def defaultChunk : Chunk := { chunk_id := [], text := [], embedding := [] }

/-- The result record built at lines 192-196 from a chunk and its hit
distance. -/
def mkResult (chunk : Chunk) (dist : ℚ) : SearchResult :=
  { chunk_id := chunk.chunk_id, text := chunk.text, similarity := similarity dist }

/-- The result loop of `search_similar_chunks` (lines 184-197): each hit
whose position passes `idx < len(embedded_chunks) and idx >= 0` becomes a
result; every other hit (including the `-1` padding) is skipped. -/
def buildResults (embedded_chunks : List Chunk) (hits : List (Int × ℚ)) : List SearchResult :=
  hits.filterMap (fun h =>
    if h.1 < (embedded_chunks.length : Int) ∧ 0 ≤ h.1 then
      some (mkResult (embedded_chunks.getD h.1.toNat defaultChunk) h.2)
    else none)

/-- `search_similar_chunks` (lines 153-202): load the artifact pair,
embed the query, search the index, build the guarded results; every
failure path returns the empty list. -/
def search_similar_chunks (disk : Disk) (service : List Char → Option Vec)
    (query : List Char) (top_k : Nat) : List SearchResult :=
  match load_faiss_index disk with
  | none => []
  | some (index, embedded_chunks) =>
    match get_embedding service query with
    | none => []
    | some query_embedding => buildResults embedded_chunks (index.search query_embedding top_k)

/-- The separator `"\n\n---\n\n"` joining retrieved chunk texts into the
context block (line 222). -/
def contextSeparator : List Char := "\n\n---\n\n".data

/-- The context block: chunk texts joined by the separator. -/
def buildContext (results : List SearchResult) : List Char :=
  (List.intersperse contextSeparator (results.map (fun r => r.text))).flatten

/-- Opening of the generation prompt template (lines 225-228), up to the
interpolated context. -/
def promptHeader : List Char :=
  ("You are an expert software engineer.\n" ++
    "        Based on the following code context, answer the question.\n" ++
    "        \n        Context:\n        ").data

/-- Template text between the interpolated context and question. -/
def promptMid : List Char := "\n\n        Question: ".data

/-- Template text after the interpolated question (lines 232-237). -/
def promptTail : List Char :=
  ("\n        \n" ++
    "        # Keep below thing in mind while answering the question:\n" ++
    "        - Your final output should always be a concise answer to the question.\n" ++
    "        - Also provide the relevant code snippets if necessary.\n" ++
    "        - Generate the final a concise answer in markdown format.\n        ").data

/-- The full generation prompt assembled by `answer_question`. -/
def answerPrompt (context question : List Char) : List Char :=
  promptHeader ++ context ++ promptMid ++ question ++ promptTail

/-- The fixed message returned when retrieval comes back empty
(line 219); the apostrophe is spliced in as character 39. -/
def noRelevantInfoMsg : List Char :=
  "I couldn".data ++ [Char.ofNat 39] ++
    "t find any relevant information in the codebase to answer your question.".data

/-- Prefix of the `except`-branch message of `answer_question`
(line 252); the appended exception text is abstracted away. -/
def sorryErrorMsg : List Char :=
  "Sorry, I encountered an error while trying to answer your question: ".data

/-- `answer_question` (lines 204-252): retrieve with `top_k=5`; empty
retrieval short-circuits to the fixed message; otherwise the generation
service is called on the assembled prompt, and a raised generation call
falls into the `except` branch. -/
def answer_question (disk : Disk) (service : List Char → Option Vec)
    (gen : List Char → Option (List Char)) (query : List Char) : List Char :=
  let results := search_similar_chunks disk service query 5
  if results = [] then noRelevantInfoMsg
  else
    match gen (answerPrompt (buildContext results) query) with
    | some answer => answer
    | none => sorryErrorMsg

/-- What the `interactive_search` loop body (lines 270-301) does with one
read line. -/
inductive ReplAction where
  | exitLoop : ReplAction
  | reprompt : ReplAction
  | askQuestion : List Char → ReplAction
  | searchQuery : List Char → Nat → ReplAction
deriving DecidableEq, Repr

/-- The characters Python `str.strip()` removes (ASCII whitespace). -/
def isPySpace (c : Char) : Bool :=
  decide (c = ' ' ∨ c = '\t' ∨ c = '\n' ∨ c = '\r' ∨ c = '\x0b' ∨ c = '\x0c')

/-- Python `s.strip()`: drop whitespace from both ends. -/
def pyStrip (s : List Char) : List Char :=
  ((s.dropWhile isPySpace).reverse.dropWhile isPySpace).reverse

/-- Python `s.lower()` on ASCII text. -/
def pyLower (s : List Char) : List Char := s.map Char.toLower

/-- The dispatch of `interactive_search` on one read line: the exit test
is `query.lower() in ['quit', 'exit', 'q']` on the raw (untrimmed) line;
then blank-after-strip reprompts; then a stripped line starting with `?`
asks the synthesizer with `query.strip()[1:].strip()` unless that
remainder is empty (which reprompts); everything else searches the raw
line with `top_k=3`. -/
def interactiveDispatch (query : List Char) : ReplAction :=
  if pyLower query = "quit".data ∨ pyLower query = "exit".data ∨ pyLower query = ['q'] then
    ReplAction.exitLoop
  else if pyStrip query = [] then ReplAction.reprompt
  else if (pyStrip query).head? = some '?' then
    if pyStrip ((pyStrip query).drop 1) = [] then ReplAction.reprompt
    else ReplAction.askQuestion (pyStrip ((pyStrip query).drop 1))
  else ReplAction.searchQuery query 3

/-- An embedding service that always succeeds with the 1-dimensional
vector `[1]` (a mocked embedder, used for concrete runs). -/
def embedOne : List Char → Option Vec := fun _ => some [(1 : ℚ)]

/-- An embedding service whose every call raises. -/
def embedNone : List Char → Option Vec := fun _ => none

/-- A disk state with both artifact files present whose index holds two
1-dimensional vectors matching two chunks. -/
def indexTwo : FaissIndex := { d := 1, vectors := [[0], [2]] }

/-- The two chunk records matching `indexTwo`. -/
def chunksTwo : List Chunk :=
  [{ chunk_id := ['1'], text := ['a'], embedding := [0] },
   { chunk_id := ['2'], text := ['b'], embedding := [2] }]

/-- Disk holding `indexTwo` and `chunksTwo`. -/
def diskTwo : Disk := { indexFile := some indexTwo, chunksFile := some chunksTwo }

/-- A disk state with neither artifact file readable. -/
def diskEmpty : Disk := { indexFile := none, chunksFile := none }

/-- A disk state violating the count invariant: the index holds two
vectors while the chunk file holds a single record. -/
def diskMismatch : Disk :=
  { indexFile := some indexTwo,
    chunksFile := some [{ chunk_id := ['1'], text := ['a'], embedding := [0] }] }

/-- A single-record chunk list. -/
def chunksOne : List Chunk := [{ chunk_id := ['1'], text := ['a'], embedding := [0] }]

/-- A hit list mixing the `-1` padding, a valid position, and an
out-of-range position. -/
def hitsMixed : List (Int × ℚ) := [(-1, 5), (0, 2), (7, 1)]

/-- Both window-size patterns on the empty text produce no windows. -/
theorem chunkWindows_nil (m : Nat) : chunkWindows m [] = [] := by
  cases m <;> simp [chunkWindows]

/-- Concatenating the fixed-size windows restores the text (positive
window size). -/
theorem chunkWindows_flatten (m : Nat) (l : List Char) :
    0 < m → (chunkWindows m l).flatten = l := by
  induction m, l using chunkWindows.induct with
  | case1 m => intro _; simp [chunkWindows]
  | case2 c cs => intro h; omega
  | case3 m c cs ih =>
    intro _
    simp only [chunkWindows, List.flatten_cons]
    rw [ih (Nat.succ_pos m), List.take_append_drop]

/-- Every fixed-size window is at most the window size long. -/
theorem chunkWindows_mem_length (m : Nat) (l : List Char) :
    ∀ c ∈ chunkWindows m l, c.length ≤ m := by
  induction m, l using chunkWindows.induct with
  | case1 m => simp [chunkWindows]
  | case2 c cs => simp [chunkWindows]
  | case3 m c cs ih =>
    intro x hx
    simp only [chunkWindows, List.mem_cons] at hx
    rcases hx with rfl | hx
    · exact List.length_take_le _ _
    · exact ih x hx

/-- C1 (amended): for a positive maximum size, the produced chunks are
the consecutive fixed-size windows of every nonempty input; for every
input (empty included) concatenating the chunks restores the input, no
chunk exceeds the maximum size, and an input no longer than the maximum
size yields exactly one chunk equal to the whole input.  (On the empty
input the code produces that one whole-input chunk, while the window
list is empty, so the window description is restricted to nonempty
inputs.) -/
theorem chunkContent_partition (content : List Char) (m : Nat) (hm : 0 < m) :
    (content ≠ [] → chunkContent content m = chunkWindows m content)
    ∧ (chunkContent content m).flatten = content
    ∧ (∀ c ∈ chunkContent content m, c.length ≤ m)
    ∧ (content.length ≤ m → chunkContent content m = [content]) := by
  unfold chunkContent
  by_cases h : content.length > m
  · simp only [if_pos h]
    exact ⟨fun _ => trivial, chunkWindows_flatten m content hm,
      chunkWindows_mem_length m content, fun hle => absurd h (by omega)⟩
  · simp only [if_neg h]
    refine ⟨?_, by simp, ?_, fun _ => trivial⟩
    · intro hne
      cases content with
      | nil => exact absurd rfl hne
      | cons c cs =>
        cases m with
        | zero => omega
        | succ n =>
          have hlen : (c :: cs).length ≤ n + 1 := by omega
          simp only [chunkWindows]
          rw [List.take_of_length_le hlen, List.drop_eq_nil_of_le hlen, chunkWindows_nil]
    · intro x hx
      simp only [List.mem_singleton] at hx
      subst hx
      omega

/-- C1 counterexample: on the empty corpus the code produces one empty
chunk, while the consecutive fixed-size windows of the empty text are no
windows at all, so the chunks are not the window partition there. -/
theorem chunkContent_empty_not_windows :
    chunkContent ([] : List Char) 10000 = [[]]
    ∧ chunkWindows 10000 ([] : List Char) = []
    ∧ chunkContent ([] : List Char) 10000 ≠ chunkWindows 10000 ([] : List Char) := by
  have h1 : chunkContent ([] : List Char) 10000 = [[]] := by simp [chunkContent]
  have h2 : chunkWindows 10000 ([] : List Char) = [] := chunkWindows_nil 10000
  exact ⟨h1, h2, by simp [h1, h2]⟩

/-- Witness for `chunkContent_partition` at the one-character input with
maximum size 5. -/
theorem chunkContent_partition_witness :
    (chunkContent ['a'] 5).flatten = ['a'] ∧ chunkContent ['a'] 5 = [['a']] :=
  ⟨(chunkContent_partition ['a'] 5 (by decide)).2.1,
   (chunkContent_partition ['a'] 5 (by decide)).2.2.2 (by decide)⟩

/-- The embedding loop aborts exactly when some chunk's embedding call
raises. -/
theorem embedChunksFrom_eq_none_iff (service : List Char → Option Vec) (cs : List (List Char)) :
    ∀ n : Nat, (embedChunksFrom service n cs = none ↔ ∃ c ∈ cs, get_embedding service c = none) := by
  induction cs with
  | nil => intro n; simp [embedChunksFrom]
  | cons c cs ih =>
    intro n
    cases h : get_embedding service c with
    | none => simp [embedChunksFrom, h]
    | some e =>
      cases h2 : embedChunksFrom service (n + 1) cs with
      | none => simp [embedChunksFrom, h, h2, (ih (n + 1)).mp h2]
      | some rest =>
        have hnone : ¬ ∃ c' ∈ cs, get_embedding service c' = none := fun hex => by
          rw [(ih (n + 1)).mpr hex] at h2; cases h2
        simp [embedChunksFrom, h, h2, hnone]

/-- In a completed embedding loop started at counter `n`, the chunk at
0-based position `i` carries id `str(n + i + 1)`. -/
theorem embedChunksFrom_ids (service : List Char → Option Vec) (cs : List (List Char)) :
    ∀ (n : Nat) (ecs : List Chunk), embedChunksFrom service n cs = some ecs →
      ∀ i (hi : i < ecs.length), (ecs.get ⟨i, hi⟩).chunk_id = (Nat.repr (n + i + 1)).data := by
  induction cs with
  | nil =>
    intro n ecs h i hi
    simp only [embedChunksFrom, Option.some.injEq] at h
    subst h
    simp at hi
  | cons c cs ih =>
    intro n ecs h i hi
    cases hg : get_embedding service c with
    | none => simp [embedChunksFrom, hg] at h
    | some e =>
      cases h2 : embedChunksFrom service (n + 1) cs with
      | none => simp [embedChunksFrom, hg, h2] at h
      | some rest =>
        simp only [embedChunksFrom, hg, h2, Option.some.injEq] at h
        subst h
        cases i with
        | zero => simp
        | succ j =>
          have hj : j < rest.length := by simpa using hi
          have hres := ih (n + 1) rest h2 j hj
          have harg : n + 1 + j + 1 = n + (j + 1) + 1 := by omega
          rw [harg] at hres
          simpa using hres

/-- C7 (amended): when the content exceeds the maximum chunk size, the
chunk at 1-based position `i` is stored with id `str(i)`; but the run
that produces exactly one chunk (content no longer than the maximum)
stores the literal id `'full'` instead of `'1'`. -/
theorem chunk_ids_spec (service : List Char → Option Vec) (content : List Char) (m : Nat)
    (index : FaissIndex) (ecs : List Chunk)
    (h : process_content_file service content m = some (index, ecs)) :
    (content.length > m →
      ∀ i (hi : i < ecs.length), (ecs.get ⟨i, hi⟩).chunk_id = (Nat.repr (i + 1)).data)
    ∧ (content.length ≤ m → ecs.map Chunk.chunk_id = [['f', 'u', 'l', 'l']]) := by
  by_cases hlen : content.length > m
  · refine ⟨?_, fun hle => absurd hlen (by omega)⟩
    intro _ i hi
    simp only [process_content_file, if_pos hlen] at h
    cases h2 : embedChunksFrom service 0 (chunkWindows m content) with
    | none => rw [h2] at h; cases h
    | some ecs2 =>
      rw [h2] at h
      simp only [Option.some.injEq, Prod.mk.injEq] at h
      obtain ⟨-, rfl⟩ := h
      have hres := embedChunksFrom_ids service (chunkWindows m content) 0 ecs2 h2 i hi
      simpa using hres
  · refine ⟨fun hgt => absurd hgt hlen, fun _ => ?_⟩
    simp only [process_content_file, if_neg hlen] at h
    cases hg : get_embedding service content with
    | none => rw [hg] at h; cases h
    | some e =>
      rw [hg] at h
      simp only [Option.some.injEq, Prod.mk.injEq] at h
      obtain ⟨-, rfl⟩ := h
      simp

/-- C7 counterexample: a run whose content fits in a single chunk stores
the id `'full'`, not the decimal string `'1'` of the chunk's 1-based
position. -/
theorem single_chunk_id_is_full :
    (process_content_file embedOne ['a', 'b'] 10000).map (fun p => p.2.map Chunk.chunk_id)
      = some [['f', 'u', 'l', 'l']]
    ∧ ['f', 'u', 'l', 'l'] ≠ (Nat.repr 1).data := by
  constructor
  · rfl
  · decide

/-- Witness for `chunk_ids_spec`: the single-chunk run over `"a"` with
maximum size 5. -/
theorem chunk_ids_spec_witness :
    List.map Chunk.chunk_id [{ chunk_id := ['f', 'u', 'l', 'l'], text := ['a'], embedding := [1] }]
      = [['f', 'u', 'l', 'l']] :=
  (chunk_ids_spec embedOne ['a'] 5 { d := 1, vectors := [[1]] }
    [{ chunk_id := ['f', 'u', 'l', 'l'], text := ['a'], embedding := [1] }] (by decide)).2 (by decide)

/-- C4 (amended): over a uniform-dimension embedding service, an
ingestion run aborts without writing either artifact exactly when some
chunk's embedding call fails; in every other case — the empty corpus
included — the run completes and writes the artifact pair after all
chunks are embedded and the index is built. -/
theorem process_abort_iff (service : List Char → Option Vec) (content : List Char) (m D : Nat)
    (_hD : ∀ t v, service t = some v → v.length = D) :
    process_content_file service content m = none
      ↔ ∃ c ∈ chunkContent content m, get_embedding service c = none := by
  by_cases hlen : content.length > m
  · simp only [process_content_file, chunkContent, if_pos hlen]
    cases h2 : embedChunksFrom service 0 (chunkWindows m content) with
    | none =>
      simp only [true_iff]
      exact (embedChunksFrom_eq_none_iff service (chunkWindows m content) 0).mp h2
    | some ecs =>
      simp only [reduceCtorEq, false_iff]
      intro hex
      rw [(embedChunksFrom_eq_none_iff service (chunkWindows m content) 0).mpr hex] at h2
      cases h2
  · simp only [process_content_file, chunkContent, if_neg hlen]
    cases hg : get_embedding service content with
    | none => simp [hg]
    | some e => simp [hg]

/-- C4 counterexample: the empty corpus is not rejected — with an
embedding service that accepts the empty text, the run completes and
writes a single-chunk artifact pair. -/
theorem process_empty_corpus_writes :
    process_content_file embedOne [] 10000
      = some ({ d := 1, vectors := [[1]] },
          [{ chunk_id := ['f', 'u', 'l', 'l'], text := [], embedding := [1] }]) := by
  rfl

/-- Witness for `process_abort_iff`: a service whose every call raises
makes the one-chunk run over `"a"` abort. -/
theorem process_abort_iff_witness :
    process_content_file embedNone ['a'] 5 = none :=
  (process_abort_iff embedNone ['a'] 5 1 (fun t v h => by cases h)).mpr
    ⟨['a'], by decide, rfl⟩

/-- C5: when the persisted artifact pair fails to load (either file
missing or unreadable) or embedding the query fails, the search returns
the empty result list; being a total function into `List SearchResult`,
it neither raises nor returns a typed error. -/
theorem search_failure_returns_empty (disk : Disk) (service : List Char → Option Vec)
    (query : List Char) (top_k : Nat)
    (h : load_faiss_index disk = none ∨ get_embedding service query = none) :
    search_similar_chunks disk service query top_k = [] := by
  rcases h with h | h
  · simp [search_similar_chunks, h]
  · cases hl : load_faiss_index disk with
    | none => simp [search_similar_chunks, hl]
    | some p => simp [search_similar_chunks, hl, h]

/-- Witness for `search_failure_returns_empty`: both artifact files
missing. -/
theorem search_failure_returns_empty_witness :
    search_similar_chunks diskEmpty embedOne ['x'] 3 = [] :=
  search_failure_returns_empty diskEmpty embedOne ['x'] 3 (Or.inl rfl)

/-- C6 (amended): loading returns the untyped `(None, None)` sentinel —
not an `ArtifactNotFoundError` or `ArtifactCorruptError` — whenever
either file is missing or unreadable, and it performs no
count-invariant check: whenever both files read, the pair is returned
as-is, even when the chunk count disagrees with the index count. -/
theorem load_faiss_index_spec (disk : Disk) :
    ((disk.indexFile = none ∨ disk.chunksFile = none) → load_faiss_index disk = none)
    ∧ (∀ index chunks, disk.indexFile = some index → disk.chunksFile = some chunks →
        load_faiss_index disk = some (index, chunks)) := by
  obtain ⟨i, c⟩ := disk
  constructor
  · rintro (h | h) <;> simp only at h <;> subst h
    · simp [load_faiss_index]
    · cases i <;> simp [load_faiss_index]
  · intro index chunks hi hc
    simp only at hi hc
    subst hi
    subst hc
    rfl

/-- C6 counterexample: a disk whose index file holds two vectors but
whose chunk file holds one record loads successfully, with no
`ArtifactCorruptError` despite the violated count invariant. -/
theorem load_no_count_check :
    load_faiss_index diskMismatch
      = some (indexTwo, [{ chunk_id := ['1'], text := ['a'], embedding := [0] }])
    ∧ indexTwo.count
        ≠ ([{ chunk_id := ['1'], text := ['a'], embedding := [0] }] : List Chunk).length := by
  exact ⟨rfl, by decide⟩

/-- Witness for `load_faiss_index_spec`: the disk with no readable
files. -/
theorem load_faiss_index_spec_witness :
    load_faiss_index diskEmpty = none :=
  (load_faiss_index_spec diskEmpty).1 (Or.inl rfl)

/-- C9: answering first retrieves with `top_k = 5`, and an empty
retrieval short-circuits to the fixed no-relevant-information message,
returned as an ordinary string value. -/
theorem answer_question_no_results (disk : Disk) (service : List Char → Option Vec)
    (gen : List Char → Option (List Char)) (query : List Char)
    (h : search_similar_chunks disk service query 5 = []) :
    answer_question disk service gen query = noRelevantInfoMsg := by
  simp [answer_question, h]

/-- Witness for `answer_question_no_results`: missing artifacts give an
empty retrieval, hence the fixed message. -/
theorem answer_question_no_results_witness :
    answer_question diskEmpty embedOne (fun _ => none) ['x'] = noRelevantInfoMsg :=
  answer_question_no_results diskEmpty embedOne (fun _ => none) ['x'] rfl

/-- C8 (amended): the loop terminates exactly when the lowercased — but
NOT trimmed — line equals `quit`, `exit` or `q`; a line blank after
trimming reprompts; a trimmed line beginning with `?` is routed to the
answer synthesizer with the `?` prefix and surrounding whitespace
stripped when that remainder is nonempty, and reprompts when it is
empty; every other line is routed to search with `k = 3`. -/
theorem interactiveDispatch_spec (query : List Char) :
    (interactiveDispatch query = ReplAction.exitLoop ↔
      (pyLower query = "quit".data ∨ pyLower query = "exit".data ∨ pyLower query = ['q']))
    ∧ (¬(pyLower query = "quit".data ∨ pyLower query = "exit".data ∨ pyLower query = ['q']) →
        pyStrip query = [] → interactiveDispatch query = ReplAction.reprompt)
    ∧ (¬(pyLower query = "quit".data ∨ pyLower query = "exit".data ∨ pyLower query = ['q']) →
        (pyStrip query).head? = some '?' →
        interactiveDispatch query =
          (if pyStrip ((pyStrip query).drop 1) = [] then ReplAction.reprompt
           else ReplAction.askQuestion (pyStrip ((pyStrip query).drop 1))))
    ∧ (¬(pyLower query = "quit".data ∨ pyLower query = "exit".data ∨ pyLower query = ['q']) →
        pyStrip query ≠ [] → (pyStrip query).head? ≠ some '?' →
        interactiveDispatch query = ReplAction.searchQuery query 3) := by
  by_cases h1 : pyLower query = "quit".data ∨ pyLower query = "exit".data ∨ pyLower query = ['q']
  · exact ⟨by simp [interactiveDispatch, h1], fun hc => absurd h1 hc,
      fun hc => absurd h1 hc, fun hc => absurd h1 hc⟩
  · by_cases h2 : pyStrip query = []
    · refine ⟨?_, fun _ _ => ?_, fun _ h3 => ?_, fun _ hne _ => absurd h2 hne⟩
      · simp [interactiveDispatch, h1, h2]
      · simp [interactiveDispatch, h1, h2]
      · rw [h2] at h3; cases h3
    · by_cases h3 : (pyStrip query).head? = some '?'
      · refine ⟨?_, fun _ hc => absurd hc h2, fun _ _ => ?_, fun _ _ hc => absurd h3 hc⟩
        · by_cases h4 : pyStrip ((pyStrip query).tail) = [] <;>
            simp [interactiveDispatch, h1, h2, h3, List.drop_one, h4]
        · by_cases h4 : pyStrip ((pyStrip query).tail) = [] <;>
            simp [interactiveDispatch, h1, h2, h3, List.drop_one, h4]
      · refine ⟨?_, fun _ hc => absurd hc h2, fun _ hc => absurd hc h3, fun _ _ _ => ?_⟩
        · simp [interactiveDispatch, h1, h2, h3]
        · simp [interactiveDispatch, h1, h2, h3]

/-- C8 counterexample: the line consisting of a space followed by `q`
trims and lowercases to `q`, yet the loop does not terminate — the exit
test is applied to the untrimmed line, so this line is routed to
search. -/
theorem dispatch_untrimmed_quit :
    interactiveDispatch [' ', 'q'] = ReplAction.searchQuery [' ', 'q'] 3
    ∧ pyLower (pyStrip [' ', 'q']) = ['q']
    ∧ interactiveDispatch [' ', 'q'] ≠ ReplAction.exitLoop := by
  exact ⟨by decide, by decide, by decide⟩

/-- Witness for `interactiveDispatch_spec`: the line `?h` is routed to
the synthesizer branch. -/
theorem interactiveDispatch_spec_witness :
    interactiveDispatch ['?', 'h']
      = (if pyStrip ((pyStrip ['?', 'h']).drop 1) = [] then ReplAction.reprompt
         else ReplAction.askQuestion (pyStrip ((pyStrip ['?', 'h']).drop 1))) :=
  (interactiveDispatch_spec ['?', 'h']).2.2.1 (by decide) (by decide)

/-- Every result produced by the guarded result loop comes from some hit
with a valid position, and equals the record built from that hit. -/
theorem mem_buildResults (embedded_chunks : List Chunk) (hits : List (Int × ℚ))
    (r : SearchResult) (hr : r ∈ buildResults embedded_chunks hits) :
    ∃ x ∈ hits, 0 ≤ x.1 ∧ x.1.toNat < embedded_chunks.length
      ∧ r = mkResult (embedded_chunks.getD x.1.toNat defaultChunk) x.2 := by
  simp only [buildResults, List.mem_filterMap] at hr
  obtain ⟨x, hx, hfx⟩ := hr
  by_cases hv : x.1 < (embedded_chunks.length : Int) ∧ 0 ≤ x.1
  · rw [if_pos hv] at hfx
    exact ⟨x, hx, hv.2, by omega, (Option.some.inj hfx).symm⟩
  · rw [if_neg hv] at hfx
    cases hfx

/-- A hit passing the in-range guard contributes its result record. -/
theorem buildResults_cons_valid (embedded_chunks : List Chunk) (h : Int × ℚ)
    (t : List (Int × ℚ)) (hv : h.1 < (embedded_chunks.length : Int) ∧ 0 ≤ h.1) :
    buildResults embedded_chunks (h :: t)
      = mkResult (embedded_chunks.getD h.1.toNat defaultChunk) h.2
          :: buildResults embedded_chunks t := by
  simp only [buildResults, List.filterMap_cons, if_pos hv]

/-- A hit failing the in-range guard is skipped. -/
theorem buildResults_cons_invalid (embedded_chunks : List Chunk) (h : Int × ℚ)
    (t : List (Int × ℚ)) (hv : ¬(h.1 < (embedded_chunks.length : Int) ∧ 0 ≤ h.1)) :
    buildResults embedded_chunks (h :: t) = buildResults embedded_chunks t := by
  simp only [buildResults, List.filterMap_cons, if_neg hv]

/-- The number of results equals the number of hits passing the
in-range guard. -/
theorem buildResults_length_filter (embedded_chunks : List Chunk) (hits : List (Int × ℚ)) :
    (buildResults embedded_chunks hits).length
      = (hits.filter
          (fun x => decide (x.1 < (embedded_chunks.length : Int) ∧ 0 ≤ x.1))).length := by
  induction hits with
  | nil => rfl
  | cons h t ih =>
    by_cases hv : h.1 < (embedded_chunks.length : Int) ∧ 0 ≤ h.1
    · rw [buildResults_cons_valid _ _ _ hv]
      simp [List.filter_cons, hv, ih]
    · rw [buildResults_cons_invalid _ _ _ hv]
      simp [List.filter_cons, hv, ih]

/-- C10: search never reads chunk metadata out of bounds — every
returned result is built from a hit position `p` with `0 ≤ p` and
`p < len(embedded_chunks)` (whatever the relation between index count
and chunk count), and exactly the hits passing that guard (never the
`-1` padding) contribute a result. -/
theorem search_reads_in_bounds (embedded_chunks : List Chunk) (hits : List (Int × ℚ)) :
    (∀ r ∈ buildResults embedded_chunks hits,
      ∃ x ∈ hits, 0 ≤ x.1 ∧ x.1.toNat < embedded_chunks.length
        ∧ r = mkResult (embedded_chunks.getD x.1.toNat defaultChunk) x.2)
    ∧ (buildResults embedded_chunks hits).length
        = (hits.filter
            (fun x => decide (x.1 < (embedded_chunks.length : Int) ∧ 0 ≤ x.1))).length :=
  ⟨fun r hr => mem_buildResults embedded_chunks hits r hr,
   buildResults_length_filter embedded_chunks hits⟩

/-- Witness for `search_reads_in_bounds`: over one stored chunk and hits
containing the `-1` padding and an out-of-range position `7`, the sole
result arises from the valid hit. -/
theorem search_reads_in_bounds_witness :
    ∃ x ∈ hitsMixed, 0 ≤ x.1 ∧ x.1.toNat < chunksOne.length
      ∧ mkResult (chunksOne.getD 0 defaultChunk) 2
          = mkResult (chunksOne.getD x.1.toNat defaultChunk) x.2 := by
  have hmem : mkResult (chunksOne.getD 0 defaultChunk) 2 ∈ buildResults chunksOne hitsMixed := by
    unfold buildResults
    refine List.mem_filterMap.mpr ⟨((0 : Int), (2 : ℚ)), by norm_num [hitsMixed], ?_⟩
    rw [if_pos (by norm_num [chunksOne])]
    rfl
  exact (search_reads_in_bounds chunksOne hitsMixed).1
    (mkResult (chunksOne.getD 0 defaultChunk) 2) hmem

/-- C3: the reported similarity is `1 / (1 + d)` of the hit distance `d`
the index reports; at distance 0 it is exactly 1, it strictly decreases
as distance grows, and on every non-negative distance it lies in
`(0, 1]`. -/
theorem similarity_spec :
    similarity 0 = 1
    ∧ (∀ d dd : ℚ, 0 ≤ d → d < dd → similarity dd < similarity d)
    ∧ (∀ d : ℚ, 0 ≤ d → 0 < similarity d ∧ similarity d ≤ 1)
    ∧ (∀ (embedded_chunks : List Chunk) (hits : List (Int × ℚ)) (r : SearchResult),
        r ∈ buildResults embedded_chunks hits → ∃ x ∈ hits, r.similarity = similarity x.2) := by
  refine ⟨by norm_num [similarity], ?_, ?_, ?_⟩
  · intro d dd hd hlt
    exact one_div_lt_one_div_of_lt (by linarith) (by linarith)
  · intro d hd
    constructor
    · simpa [similarity] using one_div_pos.mpr (show (0 : ℚ) < 1 + d by linarith)
    · rw [similarity, div_le_one (by linarith)]
      linarith
  · intro ec hits r hr
    obtain ⟨x, hx, -, -, rfl⟩ := mem_buildResults ec hits r hr
    exact ⟨x, hx, rfl⟩

/-- Witness for `similarity_spec` at distances 1 and 2. -/
theorem similarity_spec_witness :
    similarity 2 < similarity 1 ∧ 0 < similarity 2 ∧ similarity 2 ≤ 1 :=
  ⟨similarity_spec.2.1 1 2 (by norm_num) (by norm_num),
   (similarity_spec.2.2.1 2 (by norm_num)).1,
   (similarity_spec.2.2.1 2 (by norm_num)).2⟩

/-- Squared L2 distances are non-negative. -/
theorem l2sq_nonneg (u v : Vec) : 0 ≤ l2sq u v := by
  apply List.sum_nonneg
  intro x hx
  simp only [List.mem_map] at hx
  obtain ⟨y, -, rfl⟩ := hx
  exact mul_self_nonneg y

/-- The hit ordering is transitive. -/
theorem hitLe_trans (a b c : Int × ℚ) (h1 : hitLe a b = true) (h2 : hitLe b c = true) :
    hitLe a c = true := by
  simp only [hitLe, decide_eq_true_eq] at h1 h2 ⊢
  rcases h1 with h1 | ⟨h1e, h1i⟩ <;> rcases h2 with h2 | ⟨h2e, h2i⟩
  · exact Or.inl (by linarith)
  · exact Or.inl (by linarith)
  · exact Or.inl (by linarith)
  · exact Or.inr ⟨by linarith, by omega⟩

/-- The hit ordering is total. -/
theorem hitLe_total (a b : Int × ℚ) : (hitLe a b || hitLe b a) = true := by
  simp only [hitLe, Bool.or_eq_true, decide_eq_true_eq]
  rcases lt_trichotomy a.2 b.2 with h | h | h
  · exact Or.inl (Or.inl h)
  · rcases le_total a.1 b.1 with hi | hi
    · exact Or.inl (Or.inr ⟨h, hi⟩)
    · exact Or.inr (Or.inr ⟨h.symm, hi⟩)
  · exact Or.inr (Or.inl h)

/-- The hit ordering refines the distance ordering. -/
theorem hitLe_dist_le (a b : Int × ℚ) (h : hitLe a b = true) : a.2 ≤ b.2 := by
  simp only [hitLe, decide_eq_true_eq] at h
  rcases h with h | ⟨h, -⟩
  · exact le_of_lt h
  · exact le_of_eq h

/-- Every scan-table entry has a position inside the stored rows and a
non-negative distance. -/
theorem mem_faissPairs (index : FaissIndex) (q : Vec) (x : Int × ℚ)
    (hx : x ∈ faissPairs index q) :
    0 ≤ x.1 ∧ x.1 < (index.count : Int) ∧ 0 ≤ x.2 := by
  simp only [faissPairs, List.mem_map, List.mem_range] at hx
  obtain ⟨i, hi, rfl⟩ := hx
  refine ⟨Int.natCast_nonneg i, ?_, l2sq_nonneg _ _⟩
  simp only []
  omega

/-- The scan table has one entry per stored row. -/
theorem length_faissPairs (index : FaissIndex) (q : Vec) :
    (faissPairs index q).length = index.count := by
  simp [faissPairs]

/-- The guarded result loop distributes over appended hit lists. -/
theorem buildResults_append (embedded_chunks : List Chunk) (a b : List (Int × ℚ)) :
    buildResults embedded_chunks (a ++ b)
      = buildResults embedded_chunks a ++ buildResults embedded_chunks b := by
  simp [buildResults]

/-- The `-1` padding entries contribute no results. -/
theorem buildResults_replicate_pad (embedded_chunks : List Chunk) (n : Nat) (d : ℚ) :
    buildResults embedded_chunks (List.replicate n ((-1 : Int), d)) = [] := by
  induction n with
  | zero => rfl
  | succ n ih =>
    rw [List.replicate_succ, buildResults_cons_invalid, ih]
    intro hcon
    omega

/-- When every hit passes the guard, the result count equals the hit
count. -/
theorem buildResults_all_valid (embedded_chunks : List Chunk) (hits : List (Int × ℚ))
    (hv : ∀ x ∈ hits, x.1 < (embedded_chunks.length : Int) ∧ 0 ≤ x.1) :
    (buildResults embedded_chunks hits).length = hits.length := by
  rw [buildResults_length_filter,
    List.filter_eq_self.mpr (fun x hx => decide_eq_true (hv x hx))]

/-- Hits sorted by ascending non-negative distance yield results sorted
by descending similarity. -/
theorem buildResults_pairwise (embedded_chunks : List Chunk) (hits : List (Int × ℚ))
    (hs : hits.Pairwise (fun a b => a.2 ≤ b.2)) (hn : ∀ x ∈ hits, 0 ≤ x.2) :
    (buildResults embedded_chunks hits).Pairwise
      (fun r s => s.similarity ≤ r.similarity) := by
  induction hits with
  | nil => exact List.Pairwise.nil
  | cons h t ih =>
    rw [List.pairwise_cons] at hs
    have hnt : ∀ x ∈ t, 0 ≤ x.2 := fun x hx => hn x (List.mem_cons_of_mem h hx)
    have hrec := ih hs.2 hnt
    by_cases hv : h.1 < (embedded_chunks.length : Int) ∧ 0 ≤ h.1
    · rw [buildResults_cons_valid _ _ _ hv, List.pairwise_cons]
      refine ⟨?_, hrec⟩
      intro s hsmem
      obtain ⟨x, hx, -, -, rfl⟩ := mem_buildResults embedded_chunks t s hsmem
      have hd : h.2 ≤ x.2 := hs.1 x hx
      have h0 : 0 ≤ h.2 := hn h (List.mem_cons_self h t)
      simp only [mkResult, similarity]
      exact one_div_le_one_div_of_le (by linarith) (by linarith)
    · rw [buildResults_cons_invalid _ _ _ hv]
      exact hrec

/-- C2: against a loaded state satisfying the count invariant, with the
query embedded to a dimension-matching vector, the search result list
has length `min k count` and its similarities are non-increasing (the
hits arrive in non-decreasing distance order, so no extra sort is
needed for highest-similarity-first output). -/
theorem search_results_sorted_length (disk : Disk) (service : List Char → Option Vec)
    (query : List Char) (k : Nat) (index : FaissIndex) (embedded_chunks : List Chunk)
    (hload : load_faiss_index disk = some (index, embedded_chunks))
    (hcount : embedded_chunks.length = index.count)
    (qe : Vec) (hembed : get_embedding service query = some qe)
    (hdim : qe.length = index.d) :
    (search_similar_chunks disk service query k).length = min k index.count
    ∧ (search_similar_chunks disk service query k).Pairwise
        (fun r s => s.similarity ≤ r.similarity) := by
  have hsearch : search_similar_chunks disk service query k
      = buildResults embedded_chunks (index.search qe k) := by
    simp [search_similar_chunks, hload, hembed]
  have hhits : index.search qe k
      = ((faissPairs index qe).mergeSort hitLe).take k
        ++ List.replicate (k - min k index.count) ((-1 : Int), faissPadDistance) := by
    simp [FaissIndex.search, hdim]
  set S := (faissPairs index qe).mergeSort hitLe with hS
  have hperm : S.Perm (faissPairs index qe) := List.mergeSort_perm _ _
  have hmemS : ∀ x ∈ S, 0 ≤ x.1 ∧ x.1 < (index.count : Int) ∧ 0 ≤ x.2 :=
    fun x hx => mem_faissPairs index qe x (hperm.mem_iff.mp hx)
  have hmemTake : ∀ x ∈ S.take k, 0 ≤ x.1 ∧ x.1 < (index.count : Int) ∧ 0 ≤ x.2 :=
    fun x hx => hmemS x ((List.take_sublist k S).subset hx)
  have hvalidTake : ∀ x ∈ S.take k, x.1 < (embedded_chunks.length : Int) ∧ 0 ≤ x.1 := by
    intro x hx
    obtain ⟨h0, hlt, -⟩ := hmemTake x hx
    rw [hcount]
    exact ⟨hlt, h0⟩
  have hlenS : S.length = index.count := by
    rw [hperm.length_eq, length_faissPairs]
  constructor
  · rw [hsearch, hhits, buildResults_append, buildResults_replicate_pad, List.append_nil,
      buildResults_all_valid embedded_chunks (S.take k) hvalidTake, List.length_take, hlenS]
  · rw [hsearch, hhits, buildResults_append, buildResults_replicate_pad, List.append_nil]
    apply buildResults_pairwise
    · have hsorted : S.Pairwise (fun a b => hitLe a b = true) :=
        List.sorted_mergeSort hitLe_trans hitLe_total (faissPairs index qe)
      exact (List.Pairwise.sublist (List.take_sublist k S) hsorted).imp
        (fun h => hitLe_dist_le _ _ h)
    · intro x hx
      exact (hmemTake x hx).2.2

/-- Witness for `search_results_sorted_length`: the two-vector disk
state searched with `k = 5`. -/
theorem search_results_sorted_length_witness :
    (search_similar_chunks diskTwo embedOne ['x'] 5).length = min 5 indexTwo.count
    ∧ (search_similar_chunks diskTwo embedOne ['x'] 5).Pairwise
        (fun r s => s.similarity ≤ r.similarity) :=
  search_results_sorted_length diskTwo embedOne ['x'] 5 indexTwo chunksTwo rfl rfl [1] rfl rfl
